import Mathlib

/-!
Verification of the `save-progress` form-persistence package.

The development embeds the repository's hooks and components as pure Lean
functions over a small model of JSON values, browser storage and emitted
side effects, and proves the specification's claims about them.
-/

namespace SaveProgress

/-- Model of a JSON-compatible JavaScript value (the shape `T` handled by the
hooks; the spec's data model calls it "an arbitrary structured record",
serialized with `JSON.stringify` / `JSON.parse`).  Numbers are modelled as
integers: no analysed claim exercises non-integral numerics. -/
inductive JsonVal where
  | null : JsonVal
  | boolean (b : Bool) : JsonVal
  | num (n : Int) : JsonVal
  | str (s : String) : JsonVal
  | obj (fields : List (String × JsonVal)) : JsonVal

/-- JavaScript truthiness of a `JsonVal`, as used by `a || b` and `if (x)`:
`null`, `false`, `0` and `""` are falsy; every object (including `{}`) is
truthy. -/
def truthy : JsonVal → Bool
  | .null => false
  | .boolean b => b
  | .num n => n != 0
  | .str s => !s.isEmpty
  | .obj _ => true

/-- JavaScript `a || b` on model values. -/
def jsOr (a b : JsonVal) : JsonVal := if truthy a then a else b

/-- A text stored under a key in a `Storage` backend: either the faithful
JSON encoding of some value, or malformed text that `JSON.parse` rejects.
The spec's data-model invariant ("serializable to and from a textual
interchange format without loss") lets the encoding be carried as the value
itself. -/
inductive StoredText where
  | jsonOf (v : JsonVal) : StoredText
  | malformed (s : String) : StoredText

/-- `JSON.stringify` on a model value: produces the faithful encoding. -/
def stringifyJson (v : JsonVal) : StoredText := .jsonOf v

/-- `JSON.parse` on a stored text, returning `none` on a parse error. -/
def parseJson : StoredText → Option JsonVal
  | .jsonOf v => some v
  | .malformed _ => none

/-- `JSON.parse(saved!)` where `saved : string | null` came from
`storage.getItem`: JavaScript coerces `null` to the text `"null"`, which
parses to the JSON `null` value; malformed text throws (modelled as
`Except.error`). -/
def jsonParseJS : Option StoredText → Except String JsonVal
  | none => .ok .null
  | some (.jsonOf v) => .ok v
  | some (.malformed s) => .error s

/-- An observable side effect emitted by the hook code: a call to the
caller-supplied save/clear function, a storage access, or a console error
log. -/
inductive Effect where
  | saveFnCall (v : JsonVal) : Effect
  | clearFnCall (v : JsonVal) : Effect
  | storageSet (key : String) (text : StoredText) : Effect
  | storageRemove (key : String) : Effect
  | storageGet (key : String) : Effect
  | logError : Effect

/-- Replay one storage effect against a storage backend (a map from keys to
stored texts); non-storage effects leave it unchanged. -/
def applyEffect (store : String → Option StoredText) : Effect → (String → Option StoredText)
  | .storageSet k t => fun q => if q == k then some t else store q
  | .storageRemove k => fun q => if q == k then none else store q
  | _ => store

/-- Replay a list of effects, left to right, against a storage backend. -/
def applyEffects (store : String → Option StoredText) (es : List Effect) :
    String → Option StoredText :=
  es.foldl applyEffect store

/-- Outcome of the caller-supplied `fetchInitialValues` promise: it either
resolves with a value or rejects. -/
inductive FetchOutcome where
  | resolves (v : JsonVal) : FetchOutcome
  | rejects : FetchOutcome

/-- The props of `useFormProgress` (`useProgressProps<T>` in
`useProgress.ts`).  `initialValues` keeps its optional record shape
(`T extends {}`, per the spec's data model a structured record);
the caller-supplied functions are modelled by whether they are present,
their invocations being recorded as effects; `fetchInitialValues` is
modelled by the outcome of its promise when supplied. -/
structure ProgressProps where
  dataKey : String
  initialValues : Option (List (String × JsonVal)) := none
  saveFunction : Bool := false
  clearFunction : Bool := false
  forceLocalActions : Bool := false
  fetchInitialValues : Option FetchOutcome := none

/-- The TS default parameter `initialValues = {} as T`: the supplied
record, or the empty record when omitted. -/
def defaultedInitialValues (p : ProgressProps) : JsonVal :=
  .obj (p.initialValues.getD [])

/-- `saveValues` from `useProgress.ts` (lines 72-80), as the list of effects
one call emits.  `hasWindow` models `typeof window !== 'undefined'`:

```ts
const saveValues = (values: T) => {
    if (saveFunction) {
        saveFunction(values);
        if (!forceLocalActions) return;
    }
    if (typeof window !== 'undefined') {
        (storage ?? window.localStorage).setItem(dataKey, JSON.stringify(values));
    }
};
``` -/
def saveValues (p : ProgressProps) (hasWindow : Bool) (values : JsonVal) : List Effect :=
  (if p.saveFunction then [Effect.saveFnCall values] else []) ++
    (if p.saveFunction && !p.forceLocalActions then []
     else if hasWindow then [Effect.storageSet p.dataKey (stringifyJson values)]
     else [])

/-- `clearValues` from `useProgress.ts` (lines 82-91): the new in-memory
value together with the emitted effects.  `current` is the render-time
`values`, so the clear function receives the pre-reset value:

```ts
const clearValues = () => {
    setValues(initialValues);
    if (clearFunction) {
        clearFunction(values);
        if (!forceLocalActions) return;
    }
    if (typeof window !== 'undefined') {
        (storage ?? window.localStorage).removeItem(dataKey);
    }
};
``` -/
def clearValues (p : ProgressProps) (hasWindow : Bool) (current : JsonVal) :
    JsonVal × List Effect :=
  (defaultedInitialValues p,
    (if p.clearFunction then [Effect.clearFnCall current] else []) ++
      (if p.clearFunction && !p.forceLocalActions then []
       else if hasWindow then [Effect.storageRemove p.dataKey]
       else []))

/-- The resolution phase of `initializeValues` (`useProgress.ts` lines
42-57): the value `initialValue` holds after the fetch / storage-read /
decode steps, with the effects those steps emit.  `stored` is the storage
backend's entry at `dataKey`.  Fetch rejection is caught and logged, the
variable keeping its previous content `initialValues`; a decode error is
caught, the variable being set to `{}`. -/
def resolveInitialValue (p : ProgressProps) (hasWindow : Bool)
    (stored : Option StoredText) : JsonVal × List Effect :=
  match p.fetchInitialValues with
  | some (.resolves v) => (v, [])
  | some .rejects => (defaultedInitialValues p, [Effect.logError])
  | none =>
    if hasWindow then
      (match jsonParseJS stored with
       | .ok v => v
       | .error _ => .obj [],
       [Effect.storageGet p.dataKey])
    else (defaultedInitialValues p, [])

/-- Result of the one-time `initializeValues` effect: the value committed by
`setValues`, the argument handed to `saveValues`, and the effects emitted
(resolution reads/logs followed by the `saveValues` call). -/
structure InitResult where
  committed : JsonVal
  savedArg : JsonVal
  effects : List Effect

/-- `initializeValues` from `useProgress.ts` (lines 41-63), ending with
`setInitialized(true)`:

```ts
setValues(initialValue || initialValues || {} as T);
saveValues(initialValue);
setInitialized(true);
``` -/
def initializeValues (p : ProgressProps) (hasWindow : Bool)
    (stored : Option StoredText) : InitResult :=
  let r := resolveInitialValue p hasWindow stored
  { committed := jsOr r.1 (jsOr (defaultedInitialValues p) (.obj []))
    savedArg := r.1
    effects := r.2 ++ saveValues p hasWindow r.1 }

/-- The steady-state effect of `useProgress.ts` lines 67-70, triggered by a
change of `values`:

```ts
React.useEffect(() => {
    if (!initialized) return;
    saveValues(values);
}, [values]);
``` -/
def valuesChangedEffect (p : ProgressProps) (hasWindow : Bool)
    (initialized : Bool) (values : JsonVal) : List Effect :=
  if !initialized then [] else saveValues p hasWindow values

/-- `initializeValues` with JavaScript exception propagation made explicit:
the translation of the effect body where every step that can throw (the
awaited fetch, `JSON.parse`) is an `Except` computation, caught exactly
where the source has a `catch`.  The fetch's `try` block catches a
rejection, logging it and keeping `initialValue = initialValues`; the
storage branch's `try` block turns a parse error into `{} as T`. -/
def initializeValuesJS (p : ProgressProps) (hasWindow : Bool)
    (stored : Option StoredText) : Except String InitResult :=
  (match p.fetchInitialValues with
   | some (.resolves v) => Except.ok (v, ([] : List Effect))
   | some .rejects => Except.ok (defaultedInitialValues p, [Effect.logError])
   | none =>
     if hasWindow then
       Except.ok
         (match jsonParseJS stored with
          | .ok v => v
          | .error _ => JsonVal.obj [],
          [Effect.storageGet p.dataKey])
     else Except.ok (defaultedInitialValues p, [])).map
    (fun (r : JsonVal × List Effect) =>
      { committed := jsOr r.1 (jsOr (defaultedInitialValues p) (.obj []))
        savedArg := r.1
        effects := r.2 ++ saveValues p hasWindow r.1 })

/-- The render-time state `useFormProgress` owns: the `initialized` flag and
the current `values`. -/
structure HookState where
  initialized : Bool
  values : JsonVal

/-- The hook's state at mount, before any effect has run:
`useState(false)` and `useState(initialValues)`. -/
def initialHookState (p : ProgressProps) : HookState :=
  { initialized := false, values := defaultedInitialValues p }

/-- The state transition the tail of `initializeValues` performs:
`setValues(initialValue || initialValues || {} as T)`,
`saveValues(initialValue)`, `setInitialized(true)`; the post-initialization
state and the effects emitted on the way. -/
def applyInit (p : ProgressProps) (hasWindow : Bool)
    (stored : Option StoredText) : HookState × List Effect :=
  let r := initializeValues p hasWindow stored
  ({ initialized := true, values := r.committed }, r.effects)

/-! ## The deprecated `useSaveProgress` hook (`useSaveProgress.ts`) -/

/-- The lazy `useState` initializer of the deprecated `useSaveProgress` hook
(`useSaveProgress.ts` lines 23-27).  The `JSON.parse(saved!)` call is not
wrapped in a `try`/`catch`, so a parse error propagates out of the
initializer:

```ts
const [value, setValue] = useState(() => {
    const saved = localStorage.getItem(key);
    const initialValue = JSON.parse(saved!);
    return initialValue || {};
});
``` -/
def legacyInitState (stored : Option StoredText) : Except String JsonVal :=
  (jsonParseJS stored).map (fun v => jsOr v (.obj []))

/-- The deprecated hook's value once mounted: the lazy initializer's result,
then the effect on `[initialValues]`, which overwrites the value with
`initialValues` whenever that argument is truthy:

```ts
useEffect(() => {
    if (initialValues) {
        setValue(initialValues);
    }
}, [initialValues]);
``` -/
def legacyMountValue (stored : Option StoredText) (initialValues : Option JsonVal) :
    Except String JsonVal :=
  (legacyInitState stored).map (fun v =>
    match initialValues with
    | some iv => if truthy iv then iv else v
    | none => v)

/-- `updateValue` of the deprecated hook together with its `saveValue`
(`useSaveProgress.ts` lines 29-43): set the in-memory value and write its
encoding under the key; the new in-memory value and storage entry. -/
def legacyUpdateValue (v : JsonVal) (_entry : Option StoredText) :
    JsonVal × Option StoredText :=
  (v, some (stringifyJson v))

/-- `clearValue` of the deprecated hook (`useSaveProgress.ts` lines 35-37):
it only calls `localStorage.removeItem(key)` — there is no `setValue`, so
the in-memory value is left unchanged while the storage entry is erased. -/
def legacyClearValue (value : JsonVal) (_entry : Option StoredText) :
    JsonVal × Option StoredText :=
  (value, none)

/-! ## The auto-save components -/

/-- JavaScript object spread `{ ...a, ...b }` on duplicate-free records: the
keys of `a` in order, each key taking `b`'s value when `b` also has it,
followed by the keys of `b` absent from `a`, in order. -/
def hasKey (l : List (String × JsonVal)) (k : String) : Bool :=
  l.any (fun q => q.1 == k)

def jsSpread (a b : List (String × JsonVal)) : List (String × JsonVal) :=
  a.map (fun q =>
      (q.1, match b.find? (fun r => r.1 == q.1) with
            | some r => r.2
            | none => q.2)) ++
    b.filter (fun r => !hasKey a r.1)

/-- The one-time mount merge of `AutoSaveFormikForm`
(`AutoSaveFormikForm.tsx` lines 47-53): a value parsed from storage is
merged into the Formik context's values by
`setValues((prevValues) => ({ ...prevValues, ...parsedValues }))` —
the host context's record spread first, the stored record spread after. -/
def formikMountMerge (prevValues parsedValues : List (String × JsonVal)) :
    List (String × JsonVal) :=
  jsSpread prevValues parsedValues

/-- The value bound to a key in a record, JavaScript property-lookup style:
the value of the first entry whose key matches. -/
def lookupKey (l : List (String × JsonVal)) (k : String) : Option JsonVal :=
  (l.find? (fun q => q.1 == k)).map (fun q => q.2)

/-- A console log entry, by channel. -/
inductive LogEntry where
  | warn (msg : String) : LogEntry
  | log (msg : String) : LogEntry
deriving DecidableEq

/-- The fixed message `AutoSaveFormikForm` warns with when saving fails. -/
def saveErrorWarnMsg : String :=
  "Error saving form data. Please check the save function. If the error persists, please contact the developer."

/-- `memoizedUpdateValues` of `AutoSaveFormikForm` (`AutoSaveFormikForm.tsx`
lines 55-63), the change handler the mount and update effect invokes; the
argument is the outcome of the `updateValues(values)` save path:

```ts
try {
    updateValues(values);
} catch (error) {
    console.warn("Error saving form data. ...");
    console.log(error);
}
``` -/
def memoizedUpdateValues (save : Except String Unit) : Except String (List LogEntry) :=
  .ok (match save with
       | .ok _ => []
       | .error e => [LogEntry.warn saveErrorWarnMsg, LogEntry.log e])

/-- The change effect of the deprecated `AutoSaveForm` component
(`AutoSaveForm.tsx` lines 21-27); the argument is the outcome of
`saveFunction(values)`:

```ts
try {
    saveFunction(values);
} catch (error) {
    console.log(error);
}
``` -/
def autoSaveChangeEffect (save : Except String Unit) : Except String (List LogEntry) :=
  .ok (match save with
       | .ok _ => []
       | .error e => [LogEntry.log e])

/-! ## Helper lemmas -/

theorem saveValues_no_storage_effect (p : ProgressProps) (hw : Bool) (v : JsonVal)
    (hs : p.saveFunction = true) (hf : p.forceLocalActions = false) :
    saveValues p hw v = [Effect.saveFnCall v] := by
  simp [saveValues, hs, hf]

theorem storageGet_not_mem_saveValues (p : ProgressProps) (hw : Bool)
    (v : JsonVal) (k : String) :
    Effect.storageGet k ∉ saveValues p hw v := by
  unfold saveValues
  cases p.saveFunction <;> cases p.forceLocalActions <;> cases hw <;> simp

/-- `List.find?` distributes over append, first list first. -/
theorem find?_append_eq {α : Type} (l₁ l₂ : List α) (p : α → Bool) :
    (l₁ ++ l₂).find? p =
      match l₁.find? p with
      | some a => some a
      | none => l₂.find? p := by
  induction l₁ with
  | nil => simp
  | cons x xs ih =>
    cases h : p x <;> simp [List.find?_cons, h, ih]

/-- `List.find?` through a key-preserving map of records. -/
theorem find?_map_keyed (l : List (String × JsonVal)) (k : String)
    (f : String × JsonVal → JsonVal) :
    (l.map (fun q => (q.1, f q))).find? (fun q => q.1 == k)
      = (l.find? (fun q => q.1 == k)).map (fun q => (q.1, f q)) := by
  induction l with
  | nil => rfl
  | cons x xs ih =>
    cases h : x.1 == k <;> simp [List.find?_cons, h, ih]

/-- Filtering with a predicate implied by the search predicate does not
change `List.find?`. -/
theorem find?_filter_of_imp {α : Type} (l : List α) (p g : α → Bool)
    (h : ∀ x, p x = true → g x = true) :
    (l.filter g).find? p = l.find? p := by
  induction l with
  | nil => rfl
  | cons x xs ih =>
    cases hg : g x
    · have hp : p x = false := by
        cases hpx : p x
        · rfl
        · exact absurd (h x hpx) (by simp [hg])
      simp [List.filter_cons, hg, List.find?_cons, hp, ih]
    · cases hp : p x <;> simp [List.filter_cons, hg, List.find?_cons, hp, ih]

theorem hasKey_eq_false_of_find?_none (l : List (String × JsonVal)) (k : String)
    (h : l.find? (fun q => q.1 == k) = none) : hasKey l k = false := by
  rw [List.find?_eq_none] at h
  unfold hasKey
  cases ha : l.any fun q => q.1 == k
  · rfl
  · obtain ⟨x, hx, hxk⟩ := List.any_eq_true.mp ha
    exact absurd hxk (h x hx)

/-! ## The claims -/

/-- C4: the steady-state persistence step (the effect on `[values]` that
re-saves the current value) never runs before `initialized` is true: in any
state where the flag is still false, a change of `values` emits no effect
at all — no save-function call and no storage write. -/
theorem changeEffect_gated_by_initialized (p : ProgressProps) (hw : Bool)
    (values : JsonVal) (initialized : Bool) (h : initialized = false) :
    valuesChangedEffect p hw initialized values = [] := by
  subst h; rfl

theorem changeEffect_gated_by_initialized_witness :
    valuesChangedEffect { dataKey := "f1", saveFunction := true } true
        (initialHookState { dataKey := "f1", saveFunction := true }).initialized
        (JsonVal.obj [("name", JsonVal.str "A")]) = [] :=
  changeEffect_gated_by_initialized _ _ _ _ rfl

/-- C2: after initialization, an update with a supplied save function calls
it with the current value and, unless `forceLocalActions` is true, performs
no storage write at all (in any environment); with `forceLocalActions` set,
an update both calls the save function and writes the encoded value to
storage, and a clear both calls the clear function and removes the key. -/
theorem saveClear_persistence_target (p : ProgressProps) (v current : JsonVal)
    (hs : p.saveFunction = true) :
    (p.forceLocalActions = false →
      ∀ hw, saveValues p hw v = [Effect.saveFnCall v]) ∧
    (p.forceLocalActions = true →
      (saveValues p true v
          = [Effect.saveFnCall v, Effect.storageSet p.dataKey (stringifyJson v)]) ∧
      (p.clearFunction = true →
        (clearValues p true current).2
          = [Effect.clearFnCall current, Effect.storageRemove p.dataKey])) := by
  refine ⟨fun hf hw => saveValues_no_storage_effect p hw v hs hf, fun hf => ⟨?_, fun hc => ?_⟩⟩
  · simp [saveValues, hs, hf]
  · simp [clearValues, hc, hf]

theorem saveClear_persistence_target_witness :
    (saveValues
        { dataKey := "f1", saveFunction := true, clearFunction := true,
          forceLocalActions := true }
        true (JsonVal.obj [("name", JsonVal.str "A")])
      = [Effect.saveFnCall (JsonVal.obj [("name", JsonVal.str "A")]),
         Effect.storageSet "f1" (stringifyJson (JsonVal.obj [("name", JsonVal.str "A")]))]) ∧
    ((clearValues
        { dataKey := "f1", saveFunction := true, clearFunction := true,
          forceLocalActions := true }
        true (JsonVal.obj [("name", JsonVal.str "A")])).2
      = [Effect.clearFnCall (JsonVal.obj [("name", JsonVal.str "A")]),
         Effect.storageRemove "f1"]) := by
  have h := saveClear_persistence_target
    { dataKey := "f1", saveFunction := true, clearFunction := true, forceLocalActions := true }
    (JsonVal.obj [("name", JsonVal.str "A")]) (JsonVal.obj [("name", JsonVal.str "A")]) rfl
  exact ⟨(h.2 rfl).1, (h.2 rfl).2 rfl⟩

/-- C3 (amended): in the current hook, `clearValues` resets the in-memory
value to `initialValues` (empty record if none), hands the pre-reset value
to a supplied clear function first, and, when no clear function is supplied
or `forceLocalActions` is true, removes the storage key, after which the
storage entry for the key is absent; the deprecated hook's `clearValue`
only removes the storage entry, leaving the in-memory value unchanged. -/
theorem clearValues_spec (p : ProgressProps) (current : JsonVal)
    (store : String → Option StoredText) :
    (clearValues p true current).1 = defaultedInitialValues p ∧
    (p.clearFunction = true →
      (clearValues p true current).2.head? = some (Effect.clearFnCall current)) ∧
    ((p.clearFunction = false ∨ p.forceLocalActions = true) →
      applyEffects store (clearValues p true current).2 p.dataKey = none) ∧
    (∀ (v : JsonVal) (e : Option StoredText), legacyClearValue v e = (v, none)) := by
  refine ⟨rfl, fun hc => by simp [clearValues, hc], fun h => ?_, fun v e => rfl⟩
  rcases h with hc | hf
  · simp [clearValues, hc, applyEffects, applyEffect]
  · cases hc : p.clearFunction <;>
      simp [clearValues, hc, hf, applyEffects, applyEffect]

theorem clearValues_spec_witness :
    ((clearValues { dataKey := "f1", clearFunction := true, forceLocalActions := true }
        true (JsonVal.obj [("name", JsonVal.str "X")])).1 = JsonVal.obj []) ∧
    ((clearValues { dataKey := "f1", clearFunction := true, forceLocalActions := true }
        true (JsonVal.obj [("name", JsonVal.str "X")])).2.head?
      = some (Effect.clearFnCall (JsonVal.obj [("name", JsonVal.str "X")]))) ∧
    (applyEffects (fun _ => some (stringifyJson (JsonVal.obj [("name", JsonVal.str "X")])))
        (clearValues { dataKey := "f1", clearFunction := true, forceLocalActions := true }
          true (JsonVal.obj [("name", JsonVal.str "X")])).2 "f1" = none) := by
  have h := clearValues_spec
    { dataKey := "f1", clearFunction := true, forceLocalActions := true }
    (JsonVal.obj [("name", JsonVal.str "X")])
    (fun _ => some (stringifyJson (JsonVal.obj [("name", JsonVal.str "X")])))
  exact ⟨h.1, h.2.1 rfl, h.2.2.1 (Or.inr rfl)⟩

/-- C3's counterexample: the deprecated `useSaveProgress` hook's
`clearValue` (`useSaveProgress.ts` lines 35-37) does not reset the
in-memory value: after a clear with current value `{name: "X"}` the value
is still `{name: "X"}`, not the empty record, even though the storage entry
is gone. -/
theorem legacyClear_keeps_value :
    (legacyClearValue (JsonVal.obj [("name", JsonVal.str "X")])
        (some (stringifyJson (JsonVal.obj [("name", JsonVal.str "X")])))).1
      = JsonVal.obj [("name", JsonVal.str "X")] ∧
    JsonVal.obj [("name", JsonVal.str "X")] ≠ JsonVal.obj [] ∧
    (legacyClearValue (JsonVal.obj [("name", JsonVal.str "X")])
        (some (stringifyJson (JsonVal.obj [("name", JsonVal.str "X")])))).2 = none := by
  refine ⟨rfl, ?_, rfl⟩
  simp

/-- C8: for every value `v` written through the update path after
initialization, when no save function overrides storage writing (none
supplied, or `forceLocalActions` set), the storage entry for the key
afterwards decodes back to `v`; the deprecated hook's `updateValue`
satisfies the same round trip. -/
theorem update_roundtrip (p : ProgressProps) (v : JsonVal)
    (store : String → Option StoredText)
    (h : p.saveFunction = false ∨ p.forceLocalActions = true) :
    ((applyEffects store (valuesChangedEffect p true true v) p.dataKey).bind parseJson
      = some v) ∧
    (∀ e : Option StoredText, (legacyUpdateValue v e).2.bind parseJson = some v) := by
  refine ⟨?_, fun e => rfl⟩
  rcases h with hs | hf
  · simp [valuesChangedEffect, saveValues, hs, applyEffects, applyEffect,
      stringifyJson, parseJson]
  · cases hs : p.saveFunction <;>
      simp [valuesChangedEffect, saveValues, hs, hf, applyEffects, applyEffect,
        stringifyJson, parseJson]

theorem update_roundtrip_witness :
    (applyEffects (fun _ => none)
        (valuesChangedEffect { dataKey := "f1" } true true
          (JsonVal.obj [("name", JsonVal.str "A")])) "f1").bind parseJson
      = some (JsonVal.obj [("name", JsonVal.str "A")]) :=
  (update_roundtrip { dataKey := "f1" } (JsonVal.obj [("name", JsonVal.str "A")])
    (fun _ => none) (Or.inl rfl)).1

/-- C10: when `fetchInitialValues` is supplied, initialization never reads
the storage backend — its outcome is independent of the stored entry, no
`getItem` effect is emitted — and when the fetch rejects, the resolved
initial value is `initialValues` (its default `{}` if omitted), not the
stored value. -/
theorem fetch_bypasses_storage (p : ProgressProps) (hw : Bool)
    (stored : Option StoredText) (f : FetchOutcome)
    (h : p.fetchInitialValues = some f) :
    initializeValues p hw stored = initializeValues p hw none ∧
    (∀ k, Effect.storageGet k ∉ (initializeValues p hw stored).effects) ∧
    (f = .rejects →
      (initializeValues p hw stored).committed = defaultedInitialValues p) := by
  refine ⟨?_, fun k => ?_, fun hr => ?_⟩
  · cases f <;> simp [initializeValues, resolveInitialValue, h]
  · cases f <;>
      simp [initializeValues, resolveInitialValue, h] <;>
      exact storageGet_not_mem_saveValues p hw _ k
  · subst hr
    simp [initializeValues, resolveInitialValue, h, jsOr, defaultedInitialValues, truthy]

theorem fetch_bypasses_storage_witness :
    initializeValues
        { dataKey := "f1", initialValues := some [("a", JsonVal.num 1)],
          fetchInitialValues := some FetchOutcome.rejects }
        true (some (StoredText.jsonOf (JsonVal.obj [("name", JsonVal.str "B")])))
      = initializeValues
          { dataKey := "f1", initialValues := some [("a", JsonVal.num 1)],
            fetchInitialValues := some FetchOutcome.rejects }
          true none ∧
    (initializeValues
        { dataKey := "f1", initialValues := some [("a", JsonVal.num 1)],
          fetchInitialValues := some FetchOutcome.rejects }
        true (some (StoredText.jsonOf (JsonVal.obj [("name", JsonVal.str "B")])))).committed
      = JsonVal.obj [("a", JsonVal.num 1)] := by
  have h := fetch_bypasses_storage
    { dataKey := "f1", initialValues := some [("a", JsonVal.num 1)],
      fetchInitialValues := some FetchOutcome.rejects }
    true (some (StoredText.jsonOf (JsonVal.obj [("name", JsonVal.str "B")])))
    FetchOutcome.rejects rfl
  exact ⟨h.1, h.2.2 rfl⟩

/-- C9 (amended): an exception raised by the save path on a host-form value
change is caught and swallowed by the adapter's change handler — it never
propagates.  `AutoSaveFormikForm`'s handler logs a warning plus the error
detail; the deprecated `AutoSaveForm`'s handler logs only the error detail
to the plain log channel. -/
theorem adapter_save_errors_contained (e : String) :
    memoizedUpdateValues (.error e)
      = .ok [LogEntry.warn saveErrorWarnMsg, LogEntry.log e] ∧
    memoizedUpdateValues (.ok ()) = .ok [] ∧
    autoSaveChangeEffect (.error e) = .ok [LogEntry.log e] ∧
    autoSaveChangeEffect (.ok ()) = .ok [] ∧
    (∀ s : Except String Unit, ∃ logs, memoizedUpdateValues s = .ok logs) ∧
    (∀ s : Except String Unit, ∃ logs, autoSaveChangeEffect s = .ok logs) := by
  refine ⟨rfl, rfl, rfl, rfl, fun s => ?_, fun s => ?_⟩ <;> cases s <;> exact ⟨_, rfl⟩

/-- C9's counterexample: for the deprecated `AutoSaveForm` component
(`AutoSaveForm.tsx` lines 21-27), an exception from the save function is
caught and swallowed, but it is logged with `console.log`, not to a
warning channel: the handler's log contains no warning entry. -/
theorem autoSaveForm_logs_without_warn :
    autoSaveChangeEffect (.error "save failed") = .ok [LogEntry.log "save failed"] ∧
    (∀ m, LogEntry.warn m ∉ [LogEntry.log "save failed"]) := by
  refine ⟨rfl, fun m => ?_⟩
  simp

/-- C5 (amended): at the end of initialization the store commits the
resolved value (the raw fetched/decoded value if truthy, else
`initialValues`, else the empty record) as current state, marks
`initialized = true`, and immediately persists — not the resolved value,
but the raw pre-fallback fetched/decoded value, which coincides with the
resolved value exactly when it is truthy. -/
theorem init_commit_persist (p : ProgressProps) (hw : Bool)
    (stored : Option StoredText) :
    (applyInit p hw stored).1.initialized = true ∧
    (applyInit p hw stored).1.values
      = jsOr (initializeValues p hw stored).savedArg (defaultedInitialValues p) ∧
    (initializeValues p hw stored).savedArg = (resolveInitialValue p hw stored).1 ∧
    (applyInit p hw stored).2
      = (resolveInitialValue p hw stored).2
          ++ saveValues p hw (initializeValues p hw stored).savedArg ∧
    (truthy (initializeValues p hw stored).savedArg = true →
      (applyInit p hw stored).1.values = (initializeValues p hw stored).savedArg) := by
  refine ⟨rfl, ?_, rfl, rfl, fun ht => ?_⟩
  · simp [applyInit, initializeValues, jsOr, defaultedInitialValues, truthy]
  · have ht' : truthy (resolveInitialValue p hw stored).1 = true := ht
    simp [applyInit, initializeValues, jsOr, ht']

theorem init_commit_persist_witness :
    (applyInit { dataKey := "f1", fetchInitialValues := some (FetchOutcome.resolves
        (JsonVal.obj [("name", JsonVal.str "B")])) } true none).1.initialized = true ∧
    (applyInit { dataKey := "f1", fetchInitialValues := some (FetchOutcome.resolves
        (JsonVal.obj [("name", JsonVal.str "B")])) } true none).1.values
      = JsonVal.obj [("name", JsonVal.str "B")] := by
  have h := init_commit_persist
    { dataKey := "f1", fetchInitialValues := some (FetchOutcome.resolves
        (JsonVal.obj [("name", JsonVal.str "B")])) } true none
  exact ⟨h.1, h.2.2.2.2 rfl⟩

/-- C5's counterexample: with empty storage (`getItem` returns `null`,
which `JSON.parse` turns into the JSON `null`) and
`initialValues = {a: 1}`, initialization commits the resolved value
`{a: 1}` but writes `null` — the pre-fallback value, not the resolved
value — through to storage: the claimed write-through of the resolved
value does not happen. -/
theorem init_persists_prefallback_value :
    (initializeValues { dataKey := "f1", initialValues := some [("a", JsonVal.num 1)] }
        true none).committed = JsonVal.obj [("a", JsonVal.num 1)] ∧
    (initializeValues { dataKey := "f1", initialValues := some [("a", JsonVal.num 1)] }
        true none).effects
      = [Effect.storageGet "f1", Effect.storageSet "f1" (stringifyJson JsonVal.null)] ∧
    stringifyJson JsonVal.null
      ≠ stringifyJson (JsonVal.obj [("a", JsonVal.num 1)]) := by
  refine ⟨rfl, rfl, ?_⟩
  simp [stringifyJson]

/-- C6 (amended): in the current hook, initialization never throws — its
exception-explicit translation always completes normally, agreeing with the
total model — and on malformed stored text the decoded value falls back to
the empty record, which is also what gets committed.  (The deprecated
`useSaveProgress` hook's unguarded decode, in contrast, throws on malformed
text.) -/
theorem useFormProgress_decode_error_recovered (p : ProgressProps) (hw : Bool)
    (stored : Option StoredText) (s : String) :
    initializeValuesJS p hw stored = Except.ok (initializeValues p hw stored) ∧
    (p.fetchInitialValues = none →
      (initializeValues p true (some (StoredText.malformed s))).savedArg
        = JsonVal.obj [] ∧
      (initializeValues p true (some (StoredText.malformed s))).committed
        = JsonVal.obj []) := by
  constructor
  · rcases hf : p.fetchInitialValues with _ | f
    · cases hw <;> rcases stored with _ | (v | s') <;>
        simp [initializeValuesJS, initializeValues, resolveInitialValue, hf,
          jsonParseJS, Except.map]
    · cases f <;>
        simp [initializeValuesJS, initializeValues, resolveInitialValue, hf, Except.map]
  · intro hf
    constructor <;>
      simp [initializeValues, resolveInitialValue, hf, jsonParseJS, jsOr, truthy]

theorem useFormProgress_decode_error_recovered_witness :
    initializeValuesJS { dataKey := "f1" } true (some (StoredText.malformed "not json"))
      = Except.ok
          (initializeValues { dataKey := "f1" } true
            (some (StoredText.malformed "not json"))) ∧
    (initializeValues { dataKey := "f1" } true
        (some (StoredText.malformed "not json"))).committed = JsonVal.obj [] := by
  have h := useFormProgress_decode_error_recovered { dataKey := "f1" } true
    (some (StoredText.malformed "not json")) "not json"
  exact ⟨h.1, (h.2 rfl).2⟩

/-- C6's counterexample: the deprecated `useSaveProgress` hook's lazy
initializer (`useSaveProgress.ts` lines 23-27) does not guard its
`JSON.parse`: on malformed stored text the initialization throws instead of
falling back to an empty record. -/
theorem legacyInit_throws_on_malformed :
    legacyInitState (some (StoredText.malformed "not json"))
      = Except.error "not json" ∧
    (∀ v, legacyInitState (some (StoredText.malformed "not json")) ≠ Except.ok v) := by
  refine ⟨rfl, fun v h => ?_⟩
  simp [legacyInitState, jsonParseJS, Except.map] at h

/-- C1 (amended): for every instance of the current `useFormProgress`
store, the value committed by the one-time initialization equals the
fetched or decoded stored value when that value is truthy, else
`initialValues` (its default, the empty record, when omitted); in
particular, with no prior stored value and no fetch function it equals
`initialValues` (or the empty record if omitted), and a truthy stored value
wins over `initialValues`.  (In the deprecated `useSaveProgress` hook, a
truthy `initialValues` argument instead overwrites the stored value after
mount.) -/
theorem initializeValues_resolution (p : ProgressProps) (hw : Bool)
    (stored : Option StoredText) :
    ((initializeValues p hw stored).committed
      = if truthy (resolveInitialValue p hw stored).1
          then (resolveInitialValue p hw stored).1
          else defaultedInitialValues p) ∧
    (p.fetchInitialValues = none →
      (initializeValues p true none).committed = defaultedInitialValues p) ∧
    (∀ v, p.fetchInitialValues = none → truthy v = true →
      (initializeValues p true (some (StoredText.jsonOf v))).committed = v) := by
  refine ⟨?_, fun hf => ?_, fun v hf hv => ?_⟩
  · simp [initializeValues, jsOr, defaultedInitialValues, truthy]
  · simp [initializeValues, resolveInitialValue, hf, jsonParseJS, jsOr, truthy,
      defaultedInitialValues]
  · simp [initializeValues, resolveInitialValue, hf, jsonParseJS, jsOr, hv]

theorem initializeValues_resolution_witness :
    (initializeValues
        { dataKey := "f1", initialValues := some [("name", JsonVal.str "")] }
        true (some (StoredText.jsonOf (JsonVal.obj [("name", JsonVal.str "B")])))).committed
      = JsonVal.obj [("name", JsonVal.str "B")] ∧
    (initializeValues { dataKey := "f2", initialValues := some [("a", JsonVal.num 1)] }
        true none).committed = JsonVal.obj [("a", JsonVal.num 1)] := by
  have h1 := initializeValues_resolution
    { dataKey := "f1", initialValues := some [("name", JsonVal.str "")] }
    true (some (StoredText.jsonOf (JsonVal.obj [("name", JsonVal.str "B")])))
  have h2 := initializeValues_resolution
    { dataKey := "f2", initialValues := some [("a", JsonVal.num 1)] } true none
  exact ⟨h1.2.2 _ rfl rfl, h2.2.1 rfl⟩

/-- C1's counterexample: in the deprecated `useSaveProgress` hook
(`useSaveProgress.ts` lines 22-49), a truthy stored value does not win over
`initialValues`: with stored value `{name: "B"}` and
`initialValues = {name: "A"}`, the value after mount is `{name: "A"}` — the
effect on `[initialValues]` overwrites the decoded stored value. -/
theorem legacy_initialValues_override_stored :
    legacyMountValue (some (StoredText.jsonOf (JsonVal.obj [("name", JsonVal.str "B")])))
        (some (JsonVal.obj [("name", JsonVal.str "A")]))
      = Except.ok (JsonVal.obj [("name", JsonVal.str "A")]) ∧
    truthy (JsonVal.obj [("name", JsonVal.str "B")]) = true ∧
    JsonVal.obj [("name", JsonVal.str "A")] ≠ JsonVal.obj [("name", JsonVal.str "B")] := by
  refine ⟨rfl, rfl, ?_⟩
  simp

/-- C7 (amended): in the richer adapter's one-time mount merge, the host
context's values are spread first and the stored values are spread after,
so stored fields win key collisions; a key the stored record does not carry
keeps its host-context value. -/
theorem formikMountMerge_precedence (prev parsed : List (String × JsonVal))
    (k : String) :
    (∀ w, lookupKey parsed k = some w →
      lookupKey (formikMountMerge prev parsed) k = some w) ∧
    (lookupKey parsed k = none →
      lookupKey (formikMountMerge prev parsed) k = lookupKey prev k) := by
  have hmap :
      (prev.map (fun q =>
        (q.1, match parsed.find? (fun r => r.1 == q.1) with
              | some r => r.2
              | none => q.2))).find? (fun q => q.1 == k)
        = (prev.find? (fun q => q.1 == k)).map (fun q =>
            (q.1, match parsed.find? (fun r => r.1 == q.1) with
                  | some r => r.2
                  | none => q.2)) :=
    find?_map_keyed prev k _
  have happ := find?_append_eq
    (prev.map (fun q =>
      (q.1, match parsed.find? (fun r => r.1 == q.1) with
            | some r => r.2
            | none => q.2)))
    (parsed.filter (fun r => !hasKey prev r.1))
    (fun q => q.1 == k)
  constructor
  · intro w hw
    unfold lookupKey at hw ⊢
    rcases hr : parsed.find? (fun q => q.1 == k) with _ | r
    · rw [hr] at hw; cases hw
    · rw [hr] at hw
      have hw2 : r.2 = w := by simpa using hw
      unfold formikMountMerge jsSpread
      rw [happ, hmap]
      rcases hq : prev.find? (fun q => q.1 == k) with _ | q₀
      · have hkF : hasKey prev k = false := hasKey_eq_false_of_find?_none prev k hq
        have hfil :
            (parsed.filter (fun r => !hasKey prev r.1)).find? (fun q => q.1 == k)
              = parsed.find? (fun q => q.1 == k) := by
          apply find?_filter_of_imp
          intro x hx
          have hx1 : x.1 = k := eq_of_beq hx
          simp [hx1, hkF]
        simp [hq, hfil, hr, hw2]
      · have hbq := List.find?_some hq
        have hq1 : q₀.1 = k := eq_of_beq hbq
        simp [hq, hq1, hr, hw2]
  · intro hnone
    unfold lookupKey at hnone ⊢
    have hpn : parsed.find? (fun q => q.1 == k) = none := Option.map_eq_none'.mp hnone
    unfold formikMountMerge jsSpread
    rw [happ, hmap]
    rcases hq : prev.find? (fun q => q.1 == k) with _ | q₀
    · have hkF : hasKey prev k = false := hasKey_eq_false_of_find?_none prev k hq
      have hfil :
          (parsed.filter (fun r => !hasKey prev r.1)).find? (fun q => q.1 == k)
            = parsed.find? (fun q => q.1 == k) := by
        apply find?_filter_of_imp
        intro x hx
        have hx1 : x.1 = k := eq_of_beq hx
        simp [hx1, hkF]
      simp [hq, hfil, hpn]
    · have hbq := List.find?_some hq
      have hq1 : q₀.1 = k := eq_of_beq hbq
      simp [hq, hq1, hpn]

theorem formikMountMerge_precedence_witness :
    lookupKey (formikMountMerge [("a", JsonVal.num 1), ("b", JsonVal.num 2)]
        [("a", JsonVal.num 9)]) "a" = some (JsonVal.num 9) ∧
    lookupKey (formikMountMerge [("a", JsonVal.num 1), ("b", JsonVal.num 2)]
        [("a", JsonVal.num 9)]) "b"
      = lookupKey [("a", JsonVal.num 1), ("b", JsonVal.num 2)] "b" := by
  have h1 := formikMountMerge_precedence
    [("a", JsonVal.num 1), ("b", JsonVal.num 2)] [("a", JsonVal.num 9)] "a"
  have h2 := formikMountMerge_precedence
    [("a", JsonVal.num 1), ("b", JsonVal.num 2)] [("a", JsonVal.num 9)] "b"
  exact ⟨h1.1 _ rfl, h2.2 rfl⟩

/-- C7's counterexample: in `{ ...prevValues, ...parsedValues }`
(`AutoSaveFormikForm.tsx` line 51) the stored record is spread after the
host record, so on the collision key `a` the stored value `9` wins — the
host-context value `1` does not: the claim's precedence is reversed. -/
theorem formikMerge_stored_wins_example :
    formikMountMerge [("a", JsonVal.num 1)] [("a", JsonVal.num 9)]
      = [("a", JsonVal.num 9)] ∧
    JsonVal.num 9 ≠ JsonVal.num 1 := by
  refine ⟨rfl, ?_⟩
  simp

end SaveProgress
